import Mathlib

/-!
Verification of `domain_checker.py` (domain availability checker).

The Python source is shallowly embedded below.  Pure string manipulation is
translated directly; every network/library effect (the `whois` library call,
`socket.gethostbyname`, the RapidAPI HTTP request) is modelled by an oracle
value describing the outcome of that one external call, so each strategy
becomes a pure function of its oracle outcome.  `time.sleep` calls have no
observable effect on any returned value and are omitted.  Functions that in
Python record which strategies were invoked implicitly (by calling them) are
embedded returning an extra ghost trace component listing the invoked
strategies, so that claims about "never invoked" are statable.
-/

namespace DomainChecker

/-! ### Character classes of the validator regex -/

/-- Character class `[a-zA-Z]`. -/
def isAlphaCh (c : Char) : Bool :=
  (('a' ≤ c) && (c ≤ 'z')) || (('A' ≤ c) && (c ≤ 'Z'))

/-- Character class `[0-9]`. -/
def isDigitCh (c : Char) : Bool :=
  ('0' ≤ c) && (c ≤ '9')

/-- Character class `[a-zA-Z0-9]`. -/
def isAlnumCh (c : Char) : Bool :=
  isAlphaCh c || isDigitCh c

/-- Character class `[a-zA-Z0-9-]` (letter, digit or hyphen). -/
def isLDHCh (c : Char) : Bool :=
  isAlnumCh c || (c == '-')

/-! ### `is_valid_domain` (domain_checker.py lines 60-67)

The regex is `^[a-zA-Z0-9]([a-zA-Z0-9-]{0,61}[a-zA-Z0-9])?\.([a-zA-Z]{2,})$`,
applied with `re.match` (anchored at the start; `$` matches at the end of the
string or just before one trailing newline). -/

/-- The label part `[a-zA-Z0-9]([a-zA-Z0-9-]{0,61}[a-zA-Z0-9])?` matches `l` entirely:
either a single alphanumeric character, or 2..63 letter/digit/hyphen
characters whose first and last are alphanumeric (first char, then a middle
of at most 61 LDH characters, then a final alphanumeric char). -/
def labelOk (l : List Char) : Bool :=
  match l with
  | [] => false
  | c :: rest =>
    isAlnumCh c &&
      (match rest.getLast? with
       | none => true
       | some d => isAlnumCh d && decide (rest.length ≤ 62) && rest.dropLast.all isLDHCh)

/-- The TLD part `([a-zA-Z]{2,})` matches `t` entirely. -/
def tldOk (t : List Char) : Bool :=
  decide (2 ≤ t.length) && t.all isAlphaCh

/-- Split a character list at its first `'.'`; `none` when no dot occurs. -/
def splitAtDot : List Char → Option (List Char × List Char)
  | [] => none
  | c :: rest =>
    if c = '.' then some ([], rest)
    else
      match splitAtDot rest with
      | none => none
      | some (a, b) => some (c :: a, b)

/-- The regex body (without `$`-newline tolerance) matches `cs` entirely:
since neither the label part nor the TLD part may contain `'.'`, the match
must split `cs` at its unique dot. -/
def coreMatch (cs : List Char) : Bool :=
  match splitAtDot cs with
  | none => false
  | some (lab, tld) => labelOk lab && tldOk tld

/-- Strip the single trailing `'\n'` that Python's `$` anchor tolerates. -/
def dropLastNewline (cs : List Char) : Option (List Char) :=
  if cs.getLast? = some '\n' then some cs.dropLast else none

/-- Match of the anchored pattern against the whole string: either the body
matches all of `cs`, or it matches all of `cs` short of one trailing newline
(the `$` anchor's tolerance). -/
def regexMatch (cs : List Char) : Bool :=
  coreMatch cs ||
    (match dropLastNewline cs with
     | some c2 => coreMatch c2
     | none => false)

/-- Function `is_valid_domain` (lines 60-67): `if not domain or len(domain) > 253:
return False` then `bool(re.match(pattern, domain))`. -/
def is_valid_domain (s : String) : Bool :=
  if s.data.isEmpty || decide (253 < s.data.length) then false
  else regexMatch s.data

/-! ### The claim's validity shape (written from the spec's words, for
comparison against `is_valid_domain`) -/

/-- Split a character list at every `'.'` into its dot-separated labels. -/
def splitLabels : List Char → List (List Char)
  | [] => [[]]
  | c :: rest =>
    if c = '.' then [] :: splitLabels rest
    else
      match splitLabels rest with
      | [] => [[c]]
      | l :: ls => (c :: l) :: ls

/-- Written from the claim's words: `s` matches `label(.label)+` (one or more
labels separated by dots so at least two labels), each label 1-63
letters/digits/hyphens not starting or ending with a hyphen, the last label
at least 2 alphabetic characters, and total length at most 253. -/
def claimValidShape (s : String) : Bool :=
  let parts := splitLabels s.data
  decide (s.data.length ≤ 253) &&
  decide (2 ≤ parts.length) &&
  parts.all (fun l =>
    decide (1 ≤ l.length) && decide (l.length ≤ 63) && l.all isLDHCh &&
    !(l.head? == some '-') && !(l.getLast? == some '-')) &&
  (match parts.getLast? with
   | some t => decide (2 ≤ t.length) && t.all isAlphaCh
   | none => false)

/-- A label of the amended shape: 1-63 letters/digits/hyphens, not starting
or ending with a hyphen. -/
def labelShape (l : List Char) : Prop :=
  1 ≤ l.length ∧ l.length ≤ 63 ∧ (∀ c ∈ l, isLDHCh c = true) ∧
    l.head? ≠ some '-' ∧ l.getLast? ≠ some '-'

/-- A top-level label of the amended shape: at least 2 alphabetic characters. -/
def tldShape (t : List Char) : Prop :=
  2 ≤ t.length ∧ ∀ c ∈ t, isAlphaCh c = true

/-- The amended validity shape: exactly two labels (one dot), the second a
TLD of at least two letters, optionally one trailing newline, total length at
most 253. -/
def validDomainShape (s : String) : Prop :=
  s.data.length ≤ 253 ∧
    ∃ lab tld nl, s.data = lab ++ '.' :: (tld ++ nl) ∧
      (nl = [] ∨ nl = ['\n']) ∧ labelShape lab ∧ tldShape tld

/-! ### Result values -/

/-- Scalar JSON / Python values appearing in `details` dictionaries and API
response bodies.  (No code path of the checker inspects nested arrays or
objects beyond truthiness, so scalars suffice for the embedded fields.) -/
inductive JsonVal where
  | null : JsonVal
  | bool (b : Bool) : JsonVal
  | str (s : String) : JsonVal
  | num (n : Int) : JsonVal
deriving DecidableEq

/-- Python truthiness of a scalar value (`bool(x)`). -/
def pyTruthy : JsonVal → Bool
  | .null => false
  | .bool b => b
  | .str s => !s.isEmpty
  | .num n => decide (n ≠ 0)

/-- Lookup `dict.get(k)` on a JSON object body (first binding of the key). -/
def jsonGet (kvs : List (String × JsonVal)) (k : String) : Option JsonVal :=
  (kvs.find? (fun p => p.1 == k)).map (fun p => p.2)

/-- Python falsiness of an optional string (`not x`: `None` or `""`). -/
def optFalsy : Option String → Bool
  | none => true
  | some s => s.isEmpty

/-- Falsiness of the `error` field (`not result.error`). -/
def errFalsy : Option String → Bool
  | none => true
  | some s => s.isEmpty

/-- Embed an optional string as a JSON value (`None` ↦ `null`). -/
def optStrJson : Option String → JsonVal
  | some s => JsonVal.str s
  | none => JsonVal.null

/-- Python `str(x) if x else None` on an optional string. -/
def strIfTruthy : Option String → JsonVal
  | some s => if s.isEmpty then JsonVal.null else JsonVal.str s
  | none => JsonVal.null

/-- The `DomainResult` dataclass (lines 19-27); every field but `domain`
defaults to `None`. -/
structure DomainResult where
  domain : String
  available : Option Bool := none
  status : Option String := none
  error : Option String := none
  details : Option (List (String × JsonVal)) := none
  method : Option String := none
deriving DecidableEq

/-! ### Strategy oracles: outcomes of the external calls -/

/-- Outcome of `whois.whois(domain)`: a record object (fields may be `None`
or empty), a `PywhoisError`, or any other exception. -/
inductive WhoisOutcome where
  | record (domain_name registrar creation_date expiration_date : Option String)
  | pywhoisError (msg : String)
  | otherError (msg : String)

/-- Outcome of `socket.gethostbyname(domain)`. -/
inductive DnsOutcome where
  | resolved
  | gaierror
  | otherError (msg : String)

/-- Outcome of the RapidAPI HTTP GET: a 2xx JSON object body, a
`requests.exceptions.RequestException` (including non-2xx raised by
`raise_for_status`), or any other exception (e.g. JSON decoding). -/
inductive HttpOutcome where
  | success (data : List (String × JsonVal))
  | requestError (msg : String)
  | otherError (msg : String)

/-! ### Substring tests used by the whois strategy -/

/-- Does `s` start with `pat`? -/
def startsWithChars : List Char → List Char → Bool
  | [], _ => true
  | _ :: _, [] => false
  | p :: ps, c :: cs => (p == c) && startsWithChars ps cs

/-- Does `pat` occur somewhere in the list (Python `pat in s`)? -/
def hasSub (pat : List Char) : List Char → Bool
  | [] => startsWithChars pat []
  | c :: cs => startsWithChars pat (c :: cs) || hasSub pat cs

/-- Python `pat in s` on strings. -/
def containsSub (s pat : String) : Bool :=
  hasSub pat.data s.data

/-! ### The three strategies (lines 69-221) -/

/-- Function `check_domain_whois` (lines 69-118), as a function of the outcome of the
one `whois.whois` call. -/
def check_domain_whois (o : WhoisOutcome) (domain : String) : DomainResult :=
  match o with
  | .record dn reg cd ed =>
    if optFalsy dn then
      { domain := domain, available := some true, status := some "AVAILABLE",
        method := some "whois_library",
        details := some [("whois_data", JsonVal.str "No registration found")] }
    else
      { domain := domain, available := some false, status := some "REGISTERED",
        method := some "whois_library",
        details := some [("registrar", optStrJson reg),
                         ("creation_date", strIfTruthy cd),
                         ("expiration_date", strIfTruthy ed)] }
  | .pywhoisError msg =>
    if containsSub msg "No match" || containsSub msg.toLower "not found" then
      { domain := domain, available := some true, status := some "AVAILABLE",
        method := some "whois_library" }
    else
      { domain := domain, available := none,
        error := some ("WHOIS error: " ++ msg), method := some "whois_library" }
  | .otherError msg =>
    { domain := domain, available := none,
      error := some ("WHOIS check failed: " ++ msg), method := some "whois_library" }

/-- Function `check_domain_dns` (lines 120-147), as a function of the outcome of the
one `socket.gethostbyname` call. -/
def check_domain_dns (o : DnsOutcome) (domain : String) : DomainResult :=
  match o with
  | .resolved =>
    { domain := domain, available := some false, status := some "REGISTERED",
      method := some "dns_resolution", details := some [("dns_resolves", JsonVal.bool true)] }
  | .gaierror =>
    { domain := domain, available := some true, status := some "AVAILABLE",
      method := some "dns_resolution", details := some [("dns_resolves", JsonVal.bool false)] }
  | .otherError msg =>
    { domain := domain, available := none,
      error := some ("DNS check failed: " ++ msg), method := some "dns_resolution" }

/-- Function `check_domain_rapidapi` (lines 149-221).  `key` is `self.rapidapi_key`
(the `RAPIDAPI_KEY` environment variable), `net` the outcome of the HTTP GET.
The second component of the result is a ghost flag: `true` iff a network
request was issued. -/
def check_domain_rapidapi (key : Option String) (net : HttpOutcome)
    (domain api_name : String) : DomainResult × Bool :=
  if optFalsy key then
    ({ domain := domain, available := none,
       error := some "RapidAPI key not found in environment variables",
       method := some ("rapidapi_" ++ api_name) }, false)
  else if ¬ (api_name = "whoisapi" ∨ api_name = "domaindb") then
    -- self.apis.get(api_name) is None
    ({ domain := domain, available := none,
       error := some ("Unknown API: " ++ api_name),
       method := some ("rapidapi_" ++ api_name) }, false)
  else
    match net with
    | .success data =>
      if api_name = "whoisapi" then
        if (jsonGet data "registrar").isSome || (jsonGet data "creation_date").isSome then
          ({ domain := domain, available := some false, status := some "REGISTERED",
             method := some ("rapidapi_" ++ api_name), details := some data }, true)
        else
          ({ domain := domain, available := some true, status := some "AVAILABLE",
             method := some ("rapidapi_" ++ api_name), details := some data }, true)
      else
        -- available = not bool(data.get('registered', True))
        let avail := !pyTruthy ((jsonGet data "registered").getD (JsonVal.bool true))
        ({ domain := domain, available := some avail,
           status := some (if avail then "AVAILABLE" else "REGISTERED"),
           method := some ("rapidapi_" ++ api_name), details := some data }, true)
    | .requestError msg =>
      ({ domain := domain, available := none,
         error := some ("API request failed: " ++ msg),
         method := some ("rapidapi_" ++ api_name) }, true)
    | .otherError msg =>
      ({ domain := domain, available := none,
         error := some ("API check failed: " ++ msg),
         method := some ("rapidapi_" ++ api_name) }, true)

/-! ### Orchestration: `check_domain` (lines 223-271) -/

/-- The three strategies as seen by the orchestrator.  Each is an arbitrary
effectful call: it either returns a `DomainResult` or raises
(`Except.error`), which the orchestrator's `try/except: continue` swallows. -/
structure Strategies where
  whois : String → Except Unit DomainResult
  dns : String → Except Unit DomainResult
  rapidapi : String → Except Unit DomainResult

/-- The `if method == 'whois' / elif / elif / else: continue` dispatch
(lines 245-252); `none` for an unrecognized method name. -/
def dispatchMethod (S : Strategies) (domain m : String) : Option (Except Unit DomainResult) :=
  if m = "whois" then some (S.whois domain)
  else if m = "dns" then some (S.dns domain)
  else if m = "rapidapi" then some (S.rapidapi domain)
  else none

/-- The `for method in methods` loop (lines 243-264), threading
`last_result`.  Returns the result option and the ghost trace of invoked
(recognized) strategy method names in invocation order. -/
def check_domain_go (S : Strategies) (domain : String) :
    List String → Option DomainResult → Option DomainResult × List String
  | [], last => (last, [])
  | m :: ms, last =>
    match dispatchMethod S domain m with
    | none => check_domain_go S domain ms last
    | some (Except.error _) =>
      let p := check_domain_go S domain ms last
      (p.1, m :: p.2)
    | some (Except.ok r) =>
      if r.available.isSome && errFalsy r.error then (some r, [m])
      else
        let p := check_domain_go S domain ms (some r)
        (p.1, m :: p.2)

/-- The fallback result of line 267: `DomainResult(domain, available=None,
error="All methods failed")`. -/
def allMethodsFailed (domain : String) : DomainResult :=
  { domain := domain, available := none, error := some "All methods failed" }

/-- The rejection result of lines 232-236. -/
def invalidFormat (domain : String) : DomainResult :=
  { domain := domain, available := none, error := some "Invalid domain format" }

/-- Default `methods = ['whois', 'dns', 'rapidapi']` (line 239). -/
def defaultMethods : List String := ["whois", "dns", "rapidapi"]

/-- Function `check_domain` (lines 223-271) with its ghost invocation trace. -/
def check_domain (S : Strategies) (domain : String) (methods : List String) :
    DomainResult × List String :=
  if is_valid_domain domain then
    match check_domain_go S domain methods none with
    | (some r, t) => (r, t)
    | (none, t) => (allMethodsFailed domain, t)
  else (invalidFormat domain, [])

/-! ### The real strategies, tied to their oracles -/

/-- One oracle per external effect: the `whois` library, the resolver, the
credential and the HTTP service. -/
structure Oracles where
  whois : String → WhoisOutcome
  dns : String → DnsOutcome
  rapidapi_key : Option String
  http : String → HttpOutcome

/-- The strategies `check_domain` actually dispatches to (lines 245-250);
`check_domain_rapidapi` is called with its default `api_name='whoisapi'`.
None of the three ever raises (each catches all exceptions internally). -/
def realStrategies (O : Oracles) : Strategies where
  whois := fun d => Except.ok (check_domain_whois (O.whois d) d)
  dns := fun d => Except.ok (check_domain_dns (O.dns d) d)
  rapidapi := fun d =>
    Except.ok (check_domain_rapidapi O.rapidapi_key (O.http d) d "whoisapi").1

/-! ### Batch, suggestions and search (lines 273-330) -/

/-- Function `check_multiple_domains` (lines 273-285); the rate-limiting sleep has no
observable effect on the returned list. -/
def check_multiple_domains (S : Strategies) (domains : List String) : List DomainResult :=
  domains.map (fun d => (check_domain S d defaultMethods).1)

/-- The `variations` list of lines 299-306. -/
def variations (base : String) : List String :=
  ["get" ++ base, base ++ "app", base ++ "hq", base ++ "pro",
   "my" ++ base, base ++ "online"]

/-- The default TLD list of line 290. -/
def defaultTlds : List String := ["com", "net", "org", "io", "co", "app", "dev", "tech"]

/-- Function `generate_domain_suggestions` (lines 287-312): `base.tld` for every
requested TLD, then `variations[:3]` crossed with `tlds[:4]`. -/
def generate_domain_suggestions (base : String) (tlds : List String) : List String :=
  tlds.map (fun tld => base ++ "." ++ tld) ++
    ((variations base).take 3).flatMap (fun v =>
      (tlds.take 4).map (fun tld => v ++ "." ++ tld))

/-- The `for domain in suggestions` loop of `search_available_domains`
(lines 319-328), accumulating available results; returns the collected list
and the ghost trace of domains actually checked. -/
def searchGo (S : Strategies) (maxr : Nat) :
    List String → List DomainResult → List DomainResult × List String
  | [], acc => (acc, [])
  | d :: ds, acc =>
    if maxr ≤ acc.length then (acc, [])
    else
      let r := (check_domain S d defaultMethods).1
      let acc' := if r.available = some true then acc ++ [r] else acc
      let p := searchGo S maxr ds acc'
      (p.1, d :: p.2)

/-- Function `search_available_domains` (lines 314-330): suggestions come from
`generate_domain_suggestions(base_name)` with the default TLD list. -/
def search_available_domains (S : Strategies) (base : String) (maxr : Nat) :
    List DomainResult × List String :=
  searchGo S maxr (generate_domain_suggestions base defaultTlds) []

/-- The checks issued for a list of domains, filtered to the available ones
(`if result.available:`). -/
def availFilter (S : Strategies) (ds : List String) : List DomainResult :=
  (ds.map (fun d => (check_domain S d defaultMethods).1)).filter
    (fun r => r.available = some true)

/-! ### Helper notions for the orchestration claims -/

/-- The dispatch of method `m` does not yield a clean definitive result
(`result.available is not None and not result.error` is false, or the
method is unrecognized, or the strategy raised). -/
def notCleanStep (S : Strategies) (d m : String) : Bool :=
  match dispatchMethod S d m with
  | some (Except.ok r) => !(r.available.isSome && errFalsy r.error)
  | _ => true

/-- The methods of `ms` that dispatch to a strategy (and hence are invoked). -/
def invokedIn (S : Strategies) (d : String) (ms : List String) : List String :=
  ms.filter (fun m => (dispatchMethod S d m).isSome)

/-- The result of the last recognized, non-raising strategy in `ms` —
the final value of `last_result` when no clean stop occurs. -/
def stepOk (S : Strategies) (d m : String) : Option DomainResult :=
  match dispatchMethod S d m with
  | some (Except.ok r) => some r
  | _ => none

/-- Last `stepOk` value over a method list. -/
def lastOkResult (S : Strategies) (d : String) : List String → Option DomainResult
  | [] => none
  | m :: ms =>
    match lastOkResult S d ms with
    | some r => some r
    | none => stepOk S d m

/-- The result invariant of the data model: a definitive `available`
(`some true` / `some false`) excludes a populated `error`. -/
def resultInv (r : DomainResult) : Bool :=
  !r.available.isSome || r.error.isNone

/-! ## Validator lemmas (towards C1) -/

lemma alnum_iff_ldh (c : Char) :
    isAlnumCh c = true ↔ (isLDHCh c = true ∧ c ≠ '-') := by
  constructor
  · intro h
    refine ⟨by simp [isLDHCh, h], fun hc => ?_⟩
    rw [hc] at h
    exact absurd h (by decide)
  · rintro ⟨hl, hne⟩
    simp only [isLDHCh, Bool.or_eq_true, beq_iff_eq] at hl
    rcases hl with h | h
    · exact h
    · exact absurd h hne

lemma labelOk_iff_shape (l : List Char) : labelOk l = true ↔ labelShape l := by
  cases l with
  | nil => simp [labelOk, labelShape]
  | cons c rest =>
    rcases List.eq_nil_or_concat rest with hrest | ⟨mid, d, hrest⟩
    · subst hrest
      constructor
      · intro h
        simp only [labelOk, List.getLast?_nil, Bool.and_true] at h
        rcases (alnum_iff_ldh c).mp h with ⟨hld, hne⟩
        refine ⟨by simp, by simp, ?_, ?_, ?_⟩
        · intro x hx
          simp only [List.mem_singleton] at hx
          subst hx
          exact hld
        · simp [hne]
        · simp [List.getLast?_singleton, hne]
      · rintro ⟨-, -, hall, hh, -⟩
        have hld : isLDHCh c = true := hall c (by simp)
        have hne : c ≠ '-' := by
          intro hcc
          subst hcc
          exact hh rfl
        simp only [labelOk, List.getLast?_nil, Bool.and_true]
        exact (alnum_iff_ldh c).mpr ⟨hld, hne⟩
    · rw [List.concat_eq_append] at hrest
      subst hrest
      have hg : (mid ++ [d]).getLast? = some d := List.getLast?_concat _
      have hg2 : (c :: (mid ++ [d])).getLast? = some d := by
        rw [← List.cons_append, List.getLast?_concat]
      have hdl : (mid ++ [d]).dropLast = mid := List.dropLast_concat
      have hlen : (c :: (mid ++ [d])).length = mid.length + 2 := by
        simp
      constructor
      · intro h
        simp only [labelOk, hg, hdl, List.length_append, List.length_singleton,
          Bool.and_eq_true, decide_eq_true_eq, List.all_eq_true] at h
        obtain ⟨hc, ⟨hd, hle⟩, hmid⟩ := h
        rcases (alnum_iff_ldh c).mp hc with ⟨hcld, hcne⟩
        rcases (alnum_iff_ldh d).mp hd with ⟨hdld, hdne⟩
        refine ⟨by omega, by omega, ?_, ?_, ?_⟩
        · intro x hx
          rcases List.mem_cons.mp hx with rfl | hx2
          · exact hcld
          · rcases List.mem_append.mp hx2 with hx3 | hx4
            · exact hmid x hx3
            · rcases List.mem_singleton.mp hx4 with rfl
              exact hdld
        · simp [hcne]
        · rw [hg2]
          simp [hdne]
      · rintro ⟨-, hle63, hall, hh, hlast⟩
        have hcne : c ≠ '-' := by
          intro hcc
          subst hcc
          exact hh rfl
        have hdne : d ≠ '-' := by
          intro hdd
          rw [hg2, hdd] at hlast
          exact hlast rfl
        have hc : isAlnumCh c = true :=
          (alnum_iff_ldh c).mpr ⟨hall c (by simp), hcne⟩
        have hd : isAlnumCh d = true :=
          (alnum_iff_ldh d).mpr ⟨hall d (by simp), hdne⟩
        have hmid : ∀ x ∈ mid, isLDHCh x = true := by
          intro x hx
          exact hall x (by simp [hx])
        rw [hlen] at hle63
        simp only [labelOk, hg, hdl, List.length_append, List.length_singleton,
          Bool.and_eq_true, decide_eq_true_eq, List.all_eq_true]
        exact ⟨hc, ⟨hd, by omega⟩, hmid⟩

lemma labelOk_all_ldh (l : List Char) (h : labelOk l = true) :
    ∀ c ∈ l, isLDHCh c = true :=
  ((labelOk_iff_shape l).mp h).2.2.1

lemma tldOk_iff_shape (t : List Char) : tldOk t = true ↔ tldShape t := by
  simp [tldOk, tldShape, List.all_eq_true]

lemma splitAtDot_sound :
    ∀ (cs a b : List Char), splitAtDot cs = some (a, b) →
      cs = a ++ '.' :: b ∧ '.' ∉ a := by
  intro cs
  induction cs with
  | nil =>
    intro a b h
    simp [splitAtDot] at h
  | cons c rest ih =>
    intro a b h
    by_cases hc : c = '.'
    · subst hc
      simp [splitAtDot] at h
      obtain ⟨ha, hb⟩ := h
      subst ha
      subst hb
      simp
    · cases hs : splitAtDot rest with
      | none =>
        simp [splitAtDot, hc, hs] at h
      | some p =>
        obtain ⟨a', b'⟩ := p
        simp [splitAtDot, hc, hs] at h
        obtain ⟨ha, hb⟩ := h
        subst hb
        obtain ⟨hcs, hnotin⟩ := ih a' b' hs
        subst ha
        constructor
        · rw [hcs]
          simp
        · intro hmem
          rcases List.mem_cons.mp hmem with heq | hmem2
          · exact hc heq.symm
          · exact hnotin hmem2

lemma splitAtDot_complete :
    ∀ (a b : List Char), '.' ∉ a → splitAtDot (a ++ '.' :: b) = some (a, b) := by
  intro a
  induction a with
  | nil =>
    intro b _
    simp [splitAtDot]
  | cons c a' ih =>
    intro b hnot
    have hc : ¬ (c = '.') := by
      intro h
      exact hnot (by simp [h])
    have hrec := ih b (fun h => hnot (List.mem_cons_of_mem _ h))
    simp [splitAtDot, hc, hrec]

lemma coreMatch_iff (cs : List Char) :
    coreMatch cs = true ↔
      ∃ lab tld, cs = lab ++ '.' :: tld ∧ labelOk lab = true ∧ tldOk tld = true := by
  constructor
  · intro h
    unfold coreMatch at h
    cases hs : splitAtDot cs with
    | none =>
      rw [hs] at h
      simp at h
    | some p =>
      obtain ⟨lab, tld⟩ := p
      rw [hs] at h
      simp only [Bool.and_eq_true] at h
      obtain ⟨hcs, -⟩ := splitAtDot_sound cs lab tld hs
      exact ⟨lab, tld, hcs, h.1, h.2⟩
  · rintro ⟨lab, tld, rfl, hl, ht⟩
    have hnot : '.' ∉ lab := by
      intro hm
      have := labelOk_all_ldh lab hl '.' hm
      exact absurd this (by decide)
    unfold coreMatch
    rw [splitAtDot_complete lab tld hnot]
    simp [hl, ht]

lemma getLast?_some_decomp (cs : List Char) (a : Char) :
    cs.getLast? = some a ↔ ∃ l, cs = l ++ [a] := by
  constructor
  · intro h
    rcases List.eq_nil_or_concat cs with rfl | ⟨l, b, hcs⟩
    · simp at h
    · rw [List.concat_eq_append] at hcs
      subst hcs
      rw [List.getLast?_concat] at h
      simp only [Option.some.injEq] at h
      subst h
      exact ⟨l, rfl⟩
  · rintro ⟨l, rfl⟩
    exact List.getLast?_concat l

lemma dropLastNewline_iff (cs cs' : List Char) :
    dropLastNewline cs = some cs' ↔ cs = cs' ++ ['\n'] := by
  unfold dropLastNewline
  constructor
  · intro h
    split at h
    · next hg =>
      rcases (getLast?_some_decomp cs '\n').mp hg with ⟨l, rfl⟩
      rw [List.dropLast_concat] at h
      simp only [Option.some.injEq] at h
      subst h
      rfl
    · next => simp at h
  · rintro rfl
    rw [if_pos (List.getLast?_concat _), List.dropLast_concat]

lemma regexMatch_iff (cs : List Char) :
    regexMatch cs = true ↔
      ∃ lab tld nl, cs = lab ++ '.' :: (tld ++ nl) ∧ (nl = [] ∨ nl = ['\n']) ∧
        labelOk lab = true ∧ tldOk tld = true := by
  unfold regexMatch
  rw [Bool.or_eq_true]
  constructor
  · rintro (h | h)
    · rcases (coreMatch_iff cs).mp h with ⟨lab, tld, rfl, hl, ht⟩
      exact ⟨lab, tld, [], by simp, Or.inl rfl, hl, ht⟩
    · cases hd : dropLastNewline cs with
      | none =>
        rw [hd] at h
        simp at h
      | some c2 =>
        rw [hd] at h
        have hcs := (dropLastNewline_iff cs c2).mp hd
        rcases (coreMatch_iff c2).mp h with ⟨lab, tld, hc2, hl, ht⟩
        refine ⟨lab, tld, ['\n'], ?_, Or.inr rfl, hl, ht⟩
        rw [hcs, hc2]
        simp
  · rintro ⟨lab, tld, nl, rfl, hnl, hl, ht⟩
    rcases hnl with rfl | rfl
    · left
      exact (coreMatch_iff _).mpr ⟨lab, tld, by simp, hl, ht⟩
    · right
      have hd : dropLastNewline (lab ++ '.' :: (tld ++ ['\n'])) = some (lab ++ '.' :: tld) := by
        rw [dropLastNewline_iff]
        simp
      rw [hd]
      exact (coreMatch_iff _).mpr ⟨lab, tld, rfl, hl, ht⟩

/-! ## C1 -/

/-- C1 counterexample: the claimed shape `label(.label)+` accepts the
multi-label domain "a.b.com", which `is_valid_domain` rejects (its regex
allows exactly one dot); conversely `is_valid_domain` accepts "a.com\n"
(Python's `$` anchor tolerates one trailing newline), which the claimed
shape rejects. -/
theorem C1_counterexample :
    claimValidShape "a.b.com" = true ∧ is_valid_domain "a.b.com" = false ∧
      claimValidShape "a.com\n" = false ∧ is_valid_domain "a.com\n" = true := by
  refine ⟨by decide, by decide, by decide, by decide⟩

/-- C1 (amended): for every string `s`, `is_valid_domain s` returns true if
and only if `s` consists of exactly two dot-separated labels — a first label
of 1-63 letters/digits/hyphens not starting or ending with a hyphen, and a
top-level label of at least 2 alphabetic characters — optionally followed by
one trailing newline, with total length at most 253; the function is total
and returns false for every other input.  In particular it is true on
"a.com" and on a 63-character label followed by ".com", and false on "",
"-bad.com", a 64-character label followed by ".com", and "a.c". -/
theorem C1_validator_amended :
    (∀ s : String, is_valid_domain s = true ↔ validDomainShape s) ∧
    is_valid_domain "a.com" = true ∧
    is_valid_domain (String.mk (List.replicate 63 'a') ++ ".com") = true ∧
    is_valid_domain "" = false ∧
    is_valid_domain "-bad.com" = false ∧
    is_valid_domain (String.mk (List.replicate 64 'a') ++ ".com") = false ∧
    is_valid_domain "a.c" = false := by
  refine ⟨?_, by decide, by decide, by decide, by decide, by decide, by decide⟩
  intro s
  unfold is_valid_domain
  split
  · next hguard =>
    simp only [Bool.or_eq_true, List.isEmpty_iff, decide_eq_true_eq] at hguard
    constructor
    · intro h
      simp at h
    · intro hshape
      unfold validDomainShape at hshape
      obtain ⟨hlen, lab, tld, nl, hdecomp, -, -, -⟩ := hshape
      exfalso
      rcases hguard with hemp | hlong
      · rw [hemp] at hdecomp
        simp at hdecomp
      · omega
  · next hguard =>
    rw [regexMatch_iff]
    simp only [Bool.or_eq_true, List.isEmpty_iff, decide_eq_true_eq, not_or] at hguard
    obtain ⟨-, hle⟩ := hguard
    unfold validDomainShape
    constructor
    · rintro ⟨lab, tld, nl, hdec, hnl, hl, ht⟩
      exact ⟨by omega, lab, tld, nl, hdec, hnl, (labelOk_iff_shape lab).mp hl,
        (tldOk_iff_shape tld).mp ht⟩
    · rintro ⟨-, lab, tld, nl, hdec, hnl, hl, ht⟩
      exact ⟨lab, tld, nl, hdec, hnl, (labelOk_iff_shape lab).mpr hl,
        (tldOk_iff_shape tld).mpr ht⟩

/-! ## Orchestration lemmas (towards C2, C3, C10) -/

lemma go_clean_stop (S : Strategies) (d m : String) (r : DomainResult) (ms2 : List String)
    (hdisp : dispatchMethod S d m = some (Except.ok r))
    (hclean : (r.available.isSome && errFalsy r.error) = true) :
    ∀ (ms1 : List String) (last : Option DomainResult),
      ms1.all (notCleanStep S d) = true →
      check_domain_go S d (ms1 ++ m :: ms2) last = (some r, invokedIn S d ms1 ++ [m]) := by
  intro ms1
  induction ms1 with
  | nil =>
    intro last _
    simp [check_domain_go, hdisp, hclean, invokedIn]
  | cons m' ms1' ih =>
    intro last hall
    simp only [List.all_cons, Bool.and_eq_true] at hall
    obtain ⟨hm', hall'⟩ := hall
    cases hs : dispatchMethod S d m' with
    | none =>
      rw [List.cons_append]
      simp only [check_domain_go, hs]
      rw [ih last hall']
      simp [invokedIn, List.filter_cons, hs]
    | some e =>
      cases e with
      | error u =>
        rw [List.cons_append]
        simp only [check_domain_go, hs]
        rw [ih last hall']
        simp [invokedIn, List.filter_cons, hs]
      | ok r' =>
        have hnc : (r'.available.isSome && errFalsy r'.error) = false := by
          have hm2 := hm'
          simp only [notCleanStep, hs, Bool.not_eq_true'] at hm2
          exact hm2
        rw [List.cons_append]
        simp only [check_domain_go, hs, hnc]
        rw [if_neg (by simp [hnc])]
        rw [ih (some r') hall']
        simp [invokedIn, List.filter_cons, hs]

/-- C2: for every valid domain and every methods list split as
`ms1 ++ [m] ++ ms2`, if every method in `ms1` fails to produce a clean
definitive result and `m` dispatches to a strategy returning a clean
definitive result `r` (`available` not unknown, falsy `error`), then
`check_domain` returns exactly `r`, and the invocation trace is the invoked
part of `ms1` followed by `m` alone — nothing of `ms2` is ever invoked, so
the earlier clean strategy always wins. -/
theorem C2_first_clean_wins (S : Strategies) (d : String) (ms1 ms2 : List String)
    (m : String) (r : DomainResult)
    (hv : is_valid_domain d = true)
    (hdisp : dispatchMethod S d m = some (Except.ok r))
    (hclean : (r.available.isSome && errFalsy r.error) = true)
    (hprev : ms1.all (notCleanStep S d) = true) :
    check_domain S d (ms1 ++ m :: ms2) = (r, invokedIn S d ms1 ++ [m]) := by
  unfold check_domain
  rw [if_pos hv, go_clean_stop S d m r ms2 hdisp hclean ms1 none hprev]

lemma go_no_clean (S : Strategies) (d : String) :
    ∀ (ms : List String) (last : Option DomainResult),
      ms.all (notCleanStep S d) = true →
      (check_domain_go S d ms last).1 =
        (match lastOkResult S d ms with
         | some r => some r
         | none => last) := by
  intro ms
  induction ms with
  | nil =>
    intro last _
    simp [check_domain_go, lastOkResult]
  | cons m ms' ih =>
    intro last hall
    simp only [List.all_cons, Bool.and_eq_true] at hall
    obtain ⟨hm, hall'⟩ := hall
    cases hs : dispatchMethod S d m with
    | none =>
      simp only [check_domain_go, hs]
      rw [ih last hall']
      have hst : stepOk S d m = none := by simp [stepOk, hs]
      simp only [lastOkResult, hst]
      cases lastOkResult S d ms' <;> simp
    | some e =>
      cases e with
      | error u =>
        simp only [check_domain_go, hs]
        rw [ih last hall']
        have hst : stepOk S d m = none := by simp [stepOk, hs]
        simp only [lastOkResult, hst]
        cases lastOkResult S d ms' <;> simp
      | ok r' =>
        have hnc : (r'.available.isSome && errFalsy r'.error) = false := by
          have hm2 := hm
          simp only [notCleanStep, hs, Bool.not_eq_true'] at hm2
          exact hm2
        simp only [check_domain_go, hs]
        rw [if_neg (by simp [hnc])]
        rw [ih (some r') hall']
        have hst : stepOk S d m = some r' := by simp [stepOk, hs]
        simp only [lastOkResult, hst]
        cases lastOkResult S d ms' <;> simp

/-- C3: for every valid domain, if every method in the list fails to yield a
clean result (its strategy's result has unknown `available` or a populated
`error`), then `check_domain` returns the result of the last strategy that
returned one (`last_result`) — exactly, not a synthesized value — and when
there is none it returns the `available = unknown`, `error = "All methods
failed"` result; in particular an empty methods list yields that result. -/
theorem C3_exhaustion (S : Strategies) (d : String) (ms : List String)
    (hv : is_valid_domain d = true)
    (hnc : ms.all (notCleanStep S d) = true) :
    (check_domain S d ms).1 =
      (lastOkResult S d ms).getD (allMethodsFailed d) ∧
    (check_domain S d ([] : List String)).1 = allMethodsFailed d := by
  constructor
  · have hgo := go_no_clean S d ms none hnc
    rcases hp : check_domain_go S d ms none with ⟨ro, t⟩
    rw [hp] at hgo
    simp only at hgo
    unfold check_domain
    rw [if_pos hv, hp]
    cases hl : lastOkResult S d ms with
    | some r =>
      rw [hl] at hgo
      subst hgo
      simp
    | none =>
      rw [hl] at hgo
      subst hgo
      simp
  · unfold check_domain
    rw [if_pos hv]
    simp [check_domain_go]

/-! ## C10 -/

lemma dispatch_unrecognized (S : Strategies) (d m : String)
    (h1 : m ≠ "whois") (h2 : m ≠ "dns") (h3 : m ≠ "rapidapi") :
    dispatchMethod S d m = none := by
  simp [dispatchMethod, h1, h2, h3]

lemma go_all_unrecognized (S : Strategies) (d : String) :
    ∀ (ms : List String) (last : Option DomainResult),
      (∀ m ∈ ms, dispatchMethod S d m = none) →
      check_domain_go S d ms last = (last, []) := by
  intro ms
  induction ms with
  | nil =>
    intro last _
    simp [check_domain_go]
  | cons m ms' ih =>
    intro last hall
    have hm := hall m (by simp)
    simp only [check_domain_go, hm]
    exact ih last (fun m' hm' => hall m' (by simp [hm']))

/-- C10: for every valid domain and every methods list containing only names
other than "whois", "dns" and "rapidapi", every name is skipped silently
(nothing is invoked, `last_result` is never set), so `check_domain` returns
the `available = unknown`, `error = "All methods failed"` result with an
empty invocation trace — exactly as for an empty methods list. -/
theorem C10_unrecognized_methods (S : Strategies) (d : String) (ms : List String)
    (hv : is_valid_domain d = true)
    (hunk : ms.all (fun m => !(m == "whois") && !(m == "dns") && !(m == "rapidapi")) = true) :
    check_domain S d ms = (allMethodsFailed d, []) ∧
      check_domain S d ms = check_domain S d ([] : List String) := by
  have hnone : ∀ m ∈ ms, dispatchMethod S d m = none := by
    intro m hm
    have hh := (List.all_eq_true.mp hunk) m hm
    simp only [Bool.and_eq_true, Bool.not_eq_true', beq_eq_false_iff_ne] at hh
    exact dispatch_unrecognized S d m hh.1.1 hh.1.2 hh.2
  have h1 : check_domain S d ms = (allMethodsFailed d, []) := by
    unfold check_domain
    rw [if_pos hv, go_all_unrecognized S d ms none hnone]
  have h2 : check_domain S d ([] : List String) = (allMethodsFailed d, []) := by
    unfold check_domain
    rw [if_pos hv, go_all_unrecognized S d [] none (by simp)]
  exact ⟨h1, h1.trans h2.symm⟩

/-! ## Concrete strategy instantiations (witness material) -/

/-- A clean available result. -/
def cleanR : DomainResult :=
  { domain := "a.com", available := some true, status := some "AVAILABLE",
    method := some "whois_library" }

/-- A non-definitive errored result. -/
def unkR : DomainResult :=
  { domain := "a.com", available := none,
    error := some "WHOIS check failed: boom", method := some "whois_library" }

/-- A second non-definitive errored result. -/
def unkR2 : DomainResult :=
  { domain := "a.com", available := none,
    error := some "DNS check failed: boom", method := some "dns_resolution" }

/-- Strategies whose whois result is clean, the others non-clean. -/
def stratClean : Strategies :=
  { whois := fun _ => Except.ok cleanR,
    dns := fun _ => Except.ok unkR2,
    rapidapi := fun _ => Except.ok unkR }

/-- Strategies all of whose results are non-clean. -/
def stratNoClean : Strategies :=
  { whois := fun _ => Except.ok unkR,
    dns := fun _ => Except.ok unkR2,
    rapidapi := fun _ => Except.ok unkR }

/-- Witness for C2 at concrete inputs: the clean whois strategy placed after
a non-clean dns stops the chain; rapidapi is never invoked. -/
theorem C2_witness :
    check_domain stratClean "a.com" (["dns"] ++ "whois" :: ["rapidapi"]) =
      (cleanR, invokedIn stratClean "a.com" ["dns"] ++ ["whois"]) :=
  C2_first_clean_wins stratClean "a.com" ["dns"] ["rapidapi"] "whois" cleanR
    (by decide) rfl (by decide) (by decide)

/-- Witness for C3 at concrete inputs: two non-clean strategies; the chain
returns the last attempted result. -/
theorem C3_witness :
    (check_domain stratNoClean "a.com" ["whois", "dns"]).1 =
      (lastOkResult stratNoClean "a.com" ["whois", "dns"]).getD
        (allMethodsFailed "a.com") ∧
    (check_domain stratNoClean "a.com" ([] : List String)).1 =
      allMethodsFailed "a.com" :=
  C3_exhaustion stratNoClean "a.com" ["whois", "dns"] (by decide) (by decide)

/-- Witness for C10 at concrete inputs: two unrecognized method names give
the all-methods-failed result and an empty trace. -/
theorem C10_witness :
    check_domain stratNoClean "a.com" ["foo", "bar"] =
      (allMethodsFailed "a.com", []) ∧
    check_domain stratNoClean "a.com" ["foo", "bar"] =
      check_domain stratNoClean "a.com" ([] : List String) :=
  C10_unrecognized_methods stratNoClean "a.com" ["foo", "bar"] (by decide) (by decide)

/-! ## C4 -/

/-- C4: for every strategy family and every list of input domains,
`check_multiple_domains` returns exactly one result per input domain, in
input order: the list of results has the input's length and its `i`-th entry
is the single-domain check of the `i`-th input.  (That no exception escapes
a single check is reflected by `check_domain` being a total function of the
oracle outcomes.) -/
theorem C4_batch_one_result_per_domain (S : Strategies) (ds : List String) :
    (check_multiple_domains S ds).length = ds.length ∧
    ∀ i : Nat, (check_multiple_domains S ds)[i]? =
      (ds[i]?).map (fun d => (check_domain S d defaultMethods).1) := by
  constructor
  · simp [check_multiple_domains]
  · intro i
    simp [check_multiple_domains, List.getElem?_map]

/-! ## C5 -/

/-- C5: `generate_domain_suggestions` yields `base.tld` for every requested
TLD, followed by the three variants `get<base>`, `<base>app`, `<base>hq`
each combined with the first four requested TLDs only; in particular for
base "foo" and TLDs ["com", "io"] it yields exactly the 8 listed entries,
without duplicates. -/
theorem C5_suggestions (base : String) (tlds : List String) :
    (generate_domain_suggestions base tlds =
      tlds.map (fun t => base ++ "." ++ t) ++
        (["get" ++ base, base ++ "app", base ++ "hq"].flatMap (fun v =>
          (tlds.take 4).map (fun t => v ++ "." ++ t)))) ∧
    generate_domain_suggestions "foo" ["com", "io"] =
      ["foo.com", "foo.io", "getfoo.com", "getfoo.io",
       "fooapp.com", "fooapp.io", "foohq.com", "foohq.io"] ∧
    (generate_domain_suggestions "foo" ["com", "io"]).Nodup := by
  refine ⟨rfl, by decide, by decide⟩

/-! ## C6 -/

lemma availFilter_nil (S : Strategies) : availFilter S [] = [] := rfl

lemma availFilter_cons (S : Strategies) (d : String) (ds : List String) :
    availFilter S (d :: ds) =
      (if (check_domain S d defaultMethods).1.available = some true
        then [(check_domain S d defaultMethods).1] else []) ++ availFilter S ds := by
  simp only [availFilter, List.map_cons, List.filter_cons, decide_eq_true_eq]
  split <;> simp

lemma acc_avail_cons (S : Strategies) (d : String) (acc : List DomainResult)
    (xs : List String) :
    acc ++ availFilter S (d :: xs) =
      (if (check_domain S d defaultMethods).1.available = some true
        then acc ++ [(check_domain S d defaultMethods).1] else acc) ++ availFilter S xs := by
  rw [availFilter_cons]
  split <;> simp

lemma searchGo_spec (S : Strategies) (maxr : Nat) :
    ∀ (ds : List String) (acc : List DomainResult),
      (∃ rest, (searchGo S maxr ds acc).2 ++ rest = ds) ∧
      (searchGo S maxr ds acc).1 = acc ++ availFilter S (searchGo S maxr ds acc).2 ∧
      (acc.length ≤ maxr → (searchGo S maxr ds acc).1.length ≤ maxr) ∧
      ((searchGo S maxr ds acc).2 = ds ∨ maxr ≤ (searchGo S maxr ds acc).1.length) ∧
      (∀ pre rest2, pre ++ rest2 = (searchGo S maxr ds acc).2 → rest2 ≠ [] →
        (acc ++ availFilter S pre).length < maxr) := by
  intro ds
  induction ds with
  | nil =>
    intro acc
    refine ⟨⟨[], rfl⟩, ?_, fun h => h, Or.inl rfl, ?_⟩
    · show acc = acc ++ availFilter S []
      rw [availFilter_nil, List.append_nil]
    · intro pre rest2 hpre hne
      exact absurd (List.append_eq_nil.mp (show pre ++ rest2 = [] from hpre)).2 hne
  | cons d ds' ih =>
    intro acc
    by_cases hstop : maxr ≤ acc.length
    · simp only [searchGo]
      rw [if_pos hstop]
      refine ⟨⟨d :: ds', rfl⟩, ?_, fun h => h, Or.inr hstop, ?_⟩
      · show acc = acc ++ availFilter S []
        rw [availFilter_nil, List.append_nil]
      · intro pre rest2 hpre hne
        exact absurd (List.append_eq_nil.mp hpre).2 hne
    · simp only [searchGo, if_neg hstop]
      obtain ⟨⟨rest, hrest⟩, heq, hlen, hor, hmin⟩ :=
        ih (if (check_domain S d defaultMethods).1.available = some true
            then acc ++ [(check_domain S d defaultMethods).1] else acc)
      have hacclen :
          (if (check_domain S d defaultMethods).1.available = some true
            then acc ++ [(check_domain S d defaultMethods).1] else acc).length ≤ maxr := by
        split
        · simp only [List.length_append, List.length_singleton]
          omega
        · omega
      refine ⟨⟨rest, by rw [List.cons_append, hrest]⟩, ?_, fun _ => hlen hacclen, ?_, ?_⟩
      · rw [acc_avail_cons, heq]
      · rcases hor with h | h
        · exact Or.inl (by rw [h])
        · exact Or.inr h
      · intro pre rest2 hpre hne
        cases pre with
        | nil =>
          simp only [availFilter_nil, List.append_nil]
          omega
        | cons d2 pre' =>
          rw [List.cons_append] at hpre
          obtain ⟨hd2, hpre'⟩ := List.cons_eq_cons.mp hpre
          subst hd2
          rw [acc_avail_cons]
          exact hmin pre' rest2 hpre' hne

/-- C6: for every strategy family, base name and bound, the search checks a
prefix of the generated suggestions in generation order (the ghost trace is
a prefix of the suggestion list), returns exactly the available-true results
of the checked prefix in that order, never more than `max_results` of them,
stops only at the end of the suggestions or with exactly `max_results`
collected, and issues each check only while fewer than `max_results` results
have been collected. -/
theorem C6_search_short_circuit (S : Strategies) (base : String) (maxr : Nat) :
    (∃ rest, (search_available_domains S base maxr).2 ++ rest =
        generate_domain_suggestions base defaultTlds) ∧
    (search_available_domains S base maxr).1 =
      availFilter S (search_available_domains S base maxr).2 ∧
    (search_available_domains S base maxr).1.length ≤ maxr ∧
    ((search_available_domains S base maxr).2 =
        generate_domain_suggestions base defaultTlds ∨
      (search_available_domains S base maxr).1.length = maxr) ∧
    (∀ pre rest2, pre ++ rest2 = (search_available_domains S base maxr).2 →
      rest2 ≠ [] → (availFilter S pre).length < maxr) := by
  obtain ⟨hpre, heq, hlen, hor, hmin⟩ :=
    searchGo_spec S maxr (generate_domain_suggestions base defaultTlds) []
  have hl0 : ([] : List DomainResult).length ≤ maxr := by simp
  unfold search_available_domains
  refine ⟨hpre, by simpa using heq, hlen hl0, ?_, ?_⟩
  · rcases hor with h | h
    · exact Or.inl h
    · exact Or.inr (Nat.le_antisymm (hlen hl0) h)
  · intro pre rest2 h1 h2
    simpa using hmin pre rest2 h1 h2

/-- Witness for C6 at concrete inputs. -/
theorem C6_witness :
    (∃ rest, (search_available_domains stratClean "x" 2).2 ++ rest =
        generate_domain_suggestions "x" defaultTlds) ∧
    (search_available_domains stratClean "x" 2).1 =
      availFilter stratClean (search_available_domains stratClean "x" 2).2 ∧
    (search_available_domains stratClean "x" 2).1.length ≤ 2 ∧
    ((search_available_domains stratClean "x" 2).2 =
        generate_domain_suggestions "x" defaultTlds ∨
      (search_available_domains stratClean "x" 2).1.length = 2) ∧
    (∀ pre rest2, pre ++ rest2 = (search_available_domains stratClean "x" 2).2 →
      rest2 ≠ [] → (availFilter stratClean pre).length < 2) :=
  C6_search_short_circuit stratClean "x" 2

/-! ## C7 -/

lemma whois_inv (o : WhoisOutcome) (d : String) :
    resultInv (check_domain_whois o d) = true := by
  cases o with
  | record dn reg cd ed =>
    simp only [check_domain_whois]
    split <;> rfl
  | pywhoisError msg =>
    simp only [check_domain_whois]
    split <;> rfl
  | otherError msg => rfl

lemma dns_inv (o : DnsOutcome) (d : String) :
    resultInv (check_domain_dns o d) = true := by
  cases o <;> rfl

lemma rapidapi_inv (key : Option String) (net : HttpOutcome) (d api : String) :
    resultInv (check_domain_rapidapi key net d api).1 = true := by
  cases net with
  | success data =>
    simp only [check_domain_rapidapi]
    split
    · rfl
    · split
      · rfl
      · split
        · split <;> rfl
        · rfl
  | requestError msg =>
    simp only [check_domain_rapidapi]
    split
    · rfl
    · split <;> rfl
  | otherError msg =>
    simp only [check_domain_rapidapi]
    split
    · rfl
    · split <;> rfl

lemma go_result (S : Strategies) (d : String) :
    ∀ (ms : List String) (last : Option DomainResult),
      (check_domain_go S d ms last).1 = last ∨
        ∃ m r, dispatchMethod S d m = some (Except.ok r) ∧
          (check_domain_go S d ms last).1 = some r := by
  intro ms
  induction ms with
  | nil =>
    intro last
    exact Or.inl rfl
  | cons m ms' ih =>
    intro last
    cases hs : dispatchMethod S d m with
    | none =>
      simp only [check_domain_go, hs]
      exact ih last
    | some e =>
      cases e with
      | error u =>
        simp only [check_domain_go, hs]
        exact ih last
      | ok r =>
        simp only [check_domain_go, hs]
        split
        · exact Or.inr ⟨m, r, hs, rfl⟩
        · rcases ih (some r) with h | ⟨m', r', hd', h⟩
          · exact Or.inr ⟨m, r, hs, h⟩
          · exact Or.inr ⟨m', r', hd', h⟩

lemma check_domain_result_cases (S : Strategies) (d : String) (ms : List String) :
    (check_domain S d ms).1 = invalidFormat d ∨
    (check_domain S d ms).1 = allMethodsFailed d ∨
    ∃ m r, dispatchMethod S d m = some (Except.ok r) ∧ (check_domain S d ms).1 = r := by
  unfold check_domain
  split
  · rcases hp : check_domain_go S d ms none with ⟨ro, t⟩
    rcases go_result S d ms none with h | ⟨m, r, hd, h⟩
    · rw [hp] at h
      simp only at h
      subst h
      exact Or.inr (Or.inl rfl)
    · rw [hp] at h
      simp only at h
      subst h
      exact Or.inr (Or.inr ⟨m, r, hd, rfl⟩)
  · exact Or.inl rfl

lemma dispatch_real (O : Oracles) (d m : String) (e : Except Unit DomainResult)
    (h : dispatchMethod (realStrategies O) d m = some e) :
    e = Except.ok (check_domain_whois (O.whois d) d) ∨
    e = Except.ok (check_domain_dns (O.dns d) d) ∨
    e = Except.ok (check_domain_rapidapi O.rapidapi_key (O.http d) d "whoisapi").1 := by
  unfold dispatchMethod at h
  split at h
  · injection h with h2
    exact Or.inl h2.symm
  · split at h
    · injection h with h2
      exact Or.inr (Or.inl h2.symm)
    · split at h
      · injection h with h2
        exact Or.inr (Or.inr h2.symm)
      · exact absurd h (by simp)

/-- C7: every result any strategy produces, at every oracle outcome, and
every result `check_domain` produces over the real strategies, satisfies the
invariant that a definitive `available` (`some true` or `some false`)
excludes a populated `error`: an `error` may only accompany
`available = none`. -/
theorem C7_definitive_excludes_error (O : Oracles) (wo : WhoisOutcome)
    (dnso : DnsOutcome) (key : Option String) (net : HttpOutcome)
    (d d2 d3 d4 api : String) (ms : List String) :
    resultInv (check_domain_whois wo d2) = true ∧
    resultInv (check_domain_dns dnso d3) = true ∧
    resultInv (check_domain_rapidapi key net d4 api).1 = true ∧
    resultInv (check_domain (realStrategies O) d ms).1 = true := by
  refine ⟨whois_inv wo d2, dns_inv dnso d3, rapidapi_inv key net d4 api, ?_⟩
  rcases check_domain_result_cases (realStrategies O) d ms with h | h | ⟨m, r, hd, h⟩
  · rw [h]
    rfl
  · rw [h]
    rfl
  · rw [h]
    rcases dispatch_real O d m (Except.ok r) hd with h2 | h2 | h2
    · injection h2 with h3
      rw [h3]
      exact whois_inv (O.whois d) d
    · injection h2 with h3
      rw [h3]
      exact dns_inv (O.dns d) d
    · injection h2 with h3
      rw [h3]
      exact rapidapi_inv O.rapidapi_key (O.http d) d "whoisapi"

/-! ## C8 -/

/-- C8: when no API credential is configured (the environment variable is
absent), the rapidapi strategy immediately returns `available = unknown`
with the descriptive error "RapidAPI key not found in environment
variables", for every domain, provider name and would-be network outcome —
and the ghost network flag is `false`: no network request is performed. -/
theorem C8_no_credential_short_circuit (net : HttpOutcome) (d api : String) :
    check_domain_rapidapi none net d api =
      ({ domain := d, available := none,
         error := some "RapidAPI key not found in environment variables",
         method := some ("rapidapi_" ++ api) }, false) := rfl

/-! ## C9 -/

/-- C9: with a credential configured, when the domaindb provider returns a
successful (2xx) JSON body that lacks a `registered` key, the strategy
reports `available = false` with status `REGISTERED`: the absent field
defaults to `True`, so the domain is treated as registered, not unknown. -/
theorem C9_missing_registered_key (key : String) (hkey : ¬ (key = ""))
    (data : List (String × JsonVal)) (d : String)
    (hdata : jsonGet data "registered" = none) :
    ((check_domain_rapidapi (some key) (HttpOutcome.success data) d "domaindb").1).available =
      some false ∧
    ((check_domain_rapidapi (some key) (HttpOutcome.success data) d "domaindb").1).status =
      some "REGISTERED" := by
  have hof : ¬ (optFalsy (some key) = true) := by
    simp only [optFalsy]
    intro hk
    exact hkey ((String.isEmpty_iff key).mp hk)
  constructor <;> simp [check_domain_rapidapi, hof, hdata, pyTruthy]

/-- Witness for C9 at concrete inputs: an empty JSON object body. -/
theorem C9_witness :
    ((check_domain_rapidapi (some "k") (HttpOutcome.success []) "x.com" "domaindb").1).available =
      some false ∧
    ((check_domain_rapidapi (some "k") (HttpOutcome.success []) "x.com" "domaindb").1).status =
      some "REGISTERED" :=
  C9_missing_registered_key "k" (by decide) [] "x.com" rfl

end DomainChecker
